import Mathlib

/-!
# Verification of the oscpie action-manifest validation and codegen pipeline

Shallow embedding of `utils/generate_action_codes.ts`,
`packages/oscpie/utils/validate_action_manifests.ts` and the zod schemas of
`utils/action_manifest_types.ts`.

Modelling conventions:
* A JSON value is the inductive `Json`; `JSON.parse(Deno.readTextFileSync p)`
  is modelled by a function `readJson : String → Option Json` where `none`
  means the read or the parse throws (unreadable file or invalid JSON text).
  Where a raw text file is read (the prelude), the file system is
  `fs : String → Option String` and `JSON.parse` is a separate
  `jsonParse : String → Option String` oracle, `none` meaning a throw.
* A thrown JavaScript exception is `Except.error`; the `VALIDATION_FAILED`
  result value of the validator is `Option.none` inside `Except.ok`.
* `path.resolve(path.dirname(manifestPath), url)` from `jsr:@std/path` is kept
  abstract: `validateManifest` receives `dirname` and `resolve` as arguments.
* JavaScript `String.prototype.trim`, `split("\n")`, `Array.prototype.join`
  and the `Set` used for the localization check are modelled on `List Char` /
  `List String`; for `trim` the ASCII whitespace characters are used.
-/

namespace Oscpie

/-- A JSON value, as produced by a successful `JSON.parse`. -/
inductive Json where
  | null : Json
  | bool (b : Bool) : Json
  | num (n : Int) : Json
  | str (s : String) : Json
  | arr (elems : List Json) : Json
  | obj (fields : List (String × Json)) : Json

/-- JavaScript truthiness of a parsed JSON value (`if (!manifest)`). -/
def Json.truthy : Json → Bool
  | .null => false
  | .bool b => b
  | .num n => n != 0
  | .str s => s != ""
  | .arr _ => true
  | .obj _ => true

/-- Property-lookup on a JSON object (JavaScript objects have unique keys,
so first-match lookup is exact for `JSON.parse` output). -/
def Json.getKey (fields : List (String × Json)) (k : String) : Option Json :=
  (fields.find? (fun kv => kv.1 == k)).map (fun kv => kv.2)

/-! ## Parsed document types (the output of the zod schemas in
`utils/action_manifest_types.ts`). -/

/-- Result of `ActionSchema`.  `type` is kept as the raw string accepted by
`z.enum([...])`, matching the erased runtime representation. -/
structure Action where
  name : String
  requirement : Option String
  type : String
  skeleton : Option String
deriving DecidableEq, Repr

/-- Result of `ActionSetSchema`. -/
structure ActionSet where
  name : String
  usage : String
deriving DecidableEq, Repr

/-- Result of `DefaultBindingSchema`. -/
structure DefaultBinding where
  controller_type : String
  binding_url : String
deriving DecidableEq, Repr

/-- Result of `LocalizationSchema`: the `language_tag` field plus the
`catchall(z.string())` keys (every key of the object other than
`language_tag`, in object order). -/
structure Localization where
  language_tag : String
  entries : List (String × String)
deriving DecidableEq, Repr

/-- Result of `ActionManifestSchema`. -/
structure ActionManifest where
  default_bindings : List DefaultBinding
  actions : List Action
  action_sets : List ActionSet
  localization : List Localization
deriving DecidableEq, Repr

/-- Result of `SourceSchema`.  `inputs` is the record mapping each input name
to the `output` string of its `{ output: string }` object. -/
structure Source where
  inputs : List (String × String)
  mode : String
  path : String
  parameters : Option (List (String × String))
deriving DecidableEq, Repr

/-- Result of `OutputPathMappingSchema`. -/
structure OutputPathMapping where
  output : String
  path : String
deriving DecidableEq, Repr

/-- Result of `ActionBindingSchema`; `chords` is `z.array(z.any())`. -/
structure ActionBinding where
  sources : Option (List Source)
  chords : Option (List Json)
  haptics : Option (List OutputPathMapping)
  poses : Option (List OutputPathMapping)
  skeleton : Option (List OutputPathMapping)

/-- Result of `BindingFileSchema`. -/
structure BindingFile where
  bindings : List (String × ActionBinding)
  controller_type : String
  description : String
  name : String

/-! ## zod schema checks (`safeParse`), one Lean parser per schema.
`none` models a failed `safeParse`; `z.object` requires a JSON object,
strips undeclared keys, and fails when a declared key is missing or its
value rejects; `z.record` requires an object and checks every value;
`z.array` requires an array; `z.enum` requires one of the listed strings;
optional fields succeed with `none` when the key is absent. -/

/-- `z.string()`. -/
def parseStr : Json → Option String
  | .str s => some s
  | _ => none

/-- `z.enum(options)`. -/
def parseEnum (options : List String) (j : Json) : Option String :=
  match parseStr j with
  | none => none
  | some s => if options.contains s then some s else none

/-- An optional object field validated by `p` when present. -/
def parseOptField (fields : List (String × Json)) (k : String)
    (p : Json → Option α) : Option (Option α) :=
  match Json.getKey fields k with
  | none => some none
  | some v => (p v).map some

/-- A required object field validated by `p`. -/
def parseReqField (fields : List (String × Json)) (k : String)
    (p : Json → Option α) : Option α :=
  match Json.getKey fields k with
  | none => none
  | some v => p v

/-- Element-wise validation of a list, failing at the first rejection (the
order in which zod validates array elements and record values). -/
def mapO (f : α → Option β) : List α → Option (List β)
  | [] => some []
  | a :: as =>
      match f a with
      | none => none
      | some b =>
          match mapO f as with
          | none => none
          | some bs => some (b :: bs)

/-- `z.array(p)`: element-wise validation of a JSON array. -/
def parseArr (p : Json → Option α) : Json → Option (List α)
  | .arr elems => mapO p elems
  | _ => none

/-- `z.record(p)`: every value of an object validated by `p`, keys kept. -/
def parseRecord (p : Json → Option α) : Json → Option (List (String × α))
  | .obj fields => mapO (fun kv => (p kv.2).map (fun a => (kv.1, a))) fields
  | _ => none

/-- `InputMappingSchema = z.record(z.object({ output: z.string() }))`. -/
def parseInputMapping : Json → Option (List (String × String)) :=
  parseRecord (fun j =>
    match j with
    | .obj fields => parseReqField fields "output" parseStr
    | _ => none)

/-- `SourceSchema`. -/
def parseSource : Json → Option Source
  | .obj fields => do
      let inputs ← parseReqField fields "inputs" parseInputMapping
      let mode ← parseReqField fields "mode" parseStr
      let path ← parseReqField fields "path" parseStr
      let parameters ← parseOptField fields "parameters" (parseRecord parseStr)
      some ⟨inputs, mode, path, parameters⟩
  | _ => none

/-- `OutputPathMappingSchema`. -/
def parseOutputPathMapping : Json → Option OutputPathMapping
  | .obj fields => do
      let output ← parseReqField fields "output" parseStr
      let path ← parseReqField fields "path" parseStr
      some ⟨output, path⟩
  | _ => none

/-- `ActionBindingSchema`. -/
def parseActionBinding : Json → Option ActionBinding
  | .obj fields => do
      let sources ← parseOptField fields "sources" (parseArr parseSource)
      let chords ← parseOptField fields "chords" (parseArr some)
      let haptics ← parseOptField fields "haptics" (parseArr parseOutputPathMapping)
      let poses ← parseOptField fields "poses" (parseArr parseOutputPathMapping)
      let skeleton ← parseOptField fields "skeleton" (parseArr parseOutputPathMapping)
      some ⟨sources, chords, haptics, poses, skeleton⟩
  | _ => none

/-- `BindingFileSchema`. -/
def parseBindingFile : Json → Option BindingFile
  | .obj fields => do
      let bindings ← parseReqField fields "bindings" (parseRecord parseActionBinding)
      let controller_type ← parseReqField fields "controller_type" parseStr
      let description ← parseReqField fields "description" parseStr
      let name ← parseReqField fields "name" parseStr
      some ⟨bindings, controller_type, description, name⟩
  | _ => none

/-- `DefaultBindingSchema`. -/
def parseDefaultBinding : Json → Option DefaultBinding
  | .obj fields => do
      let controller_type ← parseReqField fields "controller_type" parseStr
      let binding_url ← parseReqField fields "binding_url" parseStr
      some ⟨controller_type, binding_url⟩
  | _ => none

/-- The seven action types accepted by `ActionSchema`. -/
def ACTION_TYPES : List String :=
  ["boolean", "vibration", "vector1", "vector2", "vector3", "pose", "skeleton"]

/-- `ActionSchema`. -/
def parseAction : Json → Option Action
  | .obj fields =>
      match parseReqField fields "name" parseStr with
      | none => none
      | some name =>
          match parseOptField fields "requirement"
              (parseEnum ["mandatory", "optional", "suggested"]) with
          | none => none
          | some requirement =>
              match parseReqField fields "type" (parseEnum ACTION_TYPES) with
              | none => none
              | some type =>
                  match parseOptField fields "skeleton" parseStr with
                  | none => none
                  | some skeleton => some ⟨name, requirement, type, skeleton⟩
  | _ => none

/-- `ActionSetSchema`. -/
def parseActionSet : Json → Option ActionSet
  | .obj fields => do
      let name ← parseReqField fields "name" parseStr
      let usage ← parseReqField fields "usage" (parseEnum ["leftright", "single"])
      some ⟨name, usage⟩
  | _ => none

/-- `LocalizationSchema = z.object({language_tag: z.string()}).catchall(z.string())`:
`language_tag` must be a string, every other key must map to a string. -/
def parseLocalization : Json → Option Localization
  | .obj fields => do
      let tag ← parseReqField fields "language_tag" parseStr
      let entries ← mapO (fun kv => (parseStr kv.2).map (fun s => (kv.1, s)))
        (fields.filter (fun kv => kv.1 != "language_tag"))
      some ⟨tag, entries⟩
  | _ => none

/-- `ActionManifestSchema`. -/
def parseActionManifest : Json → Option ActionManifest
  | .obj fields =>
      match parseReqField fields "default_bindings"
          (parseArr parseDefaultBinding) with
      | none => none
      | some default_bindings =>
          match parseReqField fields "actions" (parseArr parseAction) with
          | none => none
          | some actions =>
              match parseReqField fields "action_sets"
                  (parseArr parseActionSet) with
              | none => none
              | some action_sets =>
                  match parseReqField fields "localization"
                      (parseArr parseLocalization) with
                  | none => none
                  | some localization =>
                      some ⟨default_bindings, actions, action_sets, localization⟩
  | _ => none

/-! ## JavaScript string primitives, modelled on `List Char`. -/

/-- ASCII whitespace, the fragment of the JavaScript whitespace class
relevant to the repository's inputs (space, tab, line feed, vertical tab,
form feed, carriage return). -/
def isWS (c : Char) : Bool :=
  c == ' ' || c == '\t' || c == '\n' || c == '\x0b' || c == '\x0c' || c == '\r'

/-- `String.prototype.trim`: drop leading and trailing whitespace. -/
def trimLC (l : List Char) : List Char :=
  ((l.dropWhile isWS).reverse.dropWhile isWS).reverse

/-- `code.split("\n")`: split at every line-feed character;
`"".split("\n")` is `[""]`. -/
def splitNl : List Char → List (List Char)
  | [] => [[]]
  | c :: cs =>
      if c = '\n' then [] :: splitNl cs
      else
        match splitNl cs with
        | [] => [[c]]
        | l :: ls => (c :: l) :: ls

/-- `lines.join("\n")`. -/
def joinNl : List (List Char) → List Char
  | [] => []
  | [l] => l
  | l :: ls => l ++ '\n' :: joinNl ls

/-- `Array.prototype.join(sep)` on strings. -/
def joinSep (sep : String) : List String → String
  | [] => ""
  | [x] => x
  | x :: xs => x ++ sep ++ joinSep sep xs

/-- `String.prototype.trim` at `String` level. -/
def jsTrim (s : String) : String := String.mk (trimLC s.data)

/-- `flatCode` from `utils/generate_action_codes.ts`: split into lines, trim
each line, drop the lines that became empty, rejoin with line feeds. -/
def flatCode (s : String) : String :=
  String.mk (joinNl (((splitNl s.data).map trimLC).filter (fun l => !l.isEmpty)))

/-- Does a match of the regular expression `\/\/\s*STUB_FOLLOWS` start at the
head of `l`?  (`\s*` munches maximally; `STUB_FOLLOWS` starts with a
non-whitespace character, so maximal munch is exact.) -/
def stubMarkerAt (l : List Char) : Bool :=
  match l with
  | '/' :: '/' :: rest => "STUB_FOLLOWS".data.isPrefixOf (rest.dropWhile isWS)
  | _ => false

/-- Everything from the leftmost match of `\/\/\s*STUB_FOLLOWS.*` (dot-all,
greedy, hence through end of input) is deleted; without a match the input is
returned unchanged.  Models `prelude.replace(/\/\/\s*STUB_FOLLOWS.*/s, "")`. -/
def stripStubAux : List Char → List Char
  | [] => []
  | c :: cs => if stubMarkerAt (c :: cs) then [] else c :: stripStubAux cs

/-- The prelude with the stub region removed. -/
def stripStub (s : String) : String := String.mk (stripStubAux s.data)

/-! ## Name canonicalization (`utils/generate_action_codes.ts`). -/

/-- `actionName.replaceAll("/", "_")`: with single-character pattern and
replacement this is a character-wise replacement. -/
def replaceSlashes : List Char → List Char
  | [] => []
  | c :: cs => (if c = '/' then '_' else c) :: replaceSlashes cs

/-- `.replace(/^_/, "")`: remove at most one leading underscore. -/
def dropLeadUnderscore : List Char → List Char
  | '_' :: cs => cs
  | l => l

/-- `canonicalizedActionName` from the source. -/
def canonicalizedActionName (actionName : String) : String :=
  String.mk (dropLeadUnderscore (replaceSlashes actionName.data))

/-- `canonicalizedActionSetName` from the source (textually the same body as
`canonicalizedActionName`). -/
def canonicalizedActionSetName (actionSetName : String) : String :=
  String.mk (dropLeadUnderscore (replaceSlashes actionSetName.data))

/-! ## Generator (`utils/generate_action_codes.ts`). -/

/-- `INPUT_ACTIONS`. -/
def INPUT_ACTIONS : List String :=
  ["boolean", "vector1", "vector2", "vector3", "pose", "skeleton"]

/-- `isInputAction` (runtime view: membership in `INPUT_ACTIONS`). -/
def isInputAction (actionType : String) : Bool :=
  INPUT_ACTIONS.contains actionType

/-- The `boolean` entry of `inputActionFunctionByType`. -/
def booleanActionFunction (actionName : String) : String :=
  "\n        pub fn get_" ++ actionName ++
  "(\n            &self,\n        ) -> Result<BooleanInput> \x7b\n            self.get_digital_action_data(self.generated_fields.action_handle_"
  ++ actionName ++ ")\n        \x7d\n    "

/-- The `vector1` entry of `inputActionFunctionByType`. -/
def vector1ActionFunction (actionName : String) : String :=
  "\n        pub fn get_" ++ actionName ++
  "(\n            &self,\n        ) -> Result<Vector1Input> \x7b\n            self.get_vector1_action_data(self.generated_fields.action_handle_"
  ++ actionName ++ ")\n        \x7d\n    "

/-- The `vector2` entry of `inputActionFunctionByType`. -/
def vector2ActionFunction (actionName : String) : String :=
  "\n        pub fn get_" ++ actionName ++
  "(\n            &self,\n        ) -> Result<Vector2Input> \x7b\n            self.get_vector2_action_data(self.generated_fields.action_handle_"
  ++ actionName ++ ")\n        \x7d\n    "

/-- The `vector3` entry of `inputActionFunctionByType`. -/
def vector3ActionFunction (actionName : String) : String :=
  "\n        pub fn get_" ++ actionName ++
  "(\n            &self,\n        ) -> Result<Vector3Input> \x7b\n            self.get_vector3_action_data(self.generated_fields.action_handle_"
  ++ actionName ++ ")\n        \x7d\n    "

/-- The `pose` entry of `inputActionFunctionByType`. -/
def poseActionFunction (actionName : String) : String :=
  "\n        pub fn get_" ++ actionName ++
  "(\n            &self,\n            tracking_universe_origin: TrackingUniverseOrigin\n        ) -> Result<PoseInput> \x7b\n            self.get_pose_action_data(tracking_universe_origin, self.generated_fields.action_handle_"
  ++ actionName ++ ")\n        \x7d\n    "

/-- The `skeleton` entry of `inputActionFunctionByType`. -/
def skeletonActionFunction (actionName : String) : String :=
  "\n        pub fn get_" ++ actionName ++
  "(\n            &self,\n        ) -> Result<SkeletonOutput> \x7b\n            todo!();\n        \x7d\n    "

/-- `inputActionFunctionByType`, as a runtime property lookup: `none` models
the `undefined` a JavaScript object lookup yields on any other key. -/
def inputActionFunctionByType (actionType : String) : Option (String → String) :=
  if actionType = "boolean" then some booleanActionFunction
  else if actionType = "vector1" then some vector1ActionFunction
  else if actionType = "vector2" then some vector2ActionFunction
  else if actionType = "vector3" then some vector3ActionFunction
  else if actionType = "pose" then some poseActionFunction
  else if actionType = "skeleton" then some skeletonActionFunction
  else none

/-- `inputActionFunction`: throws `Invalid action type` when the type is not
an input action; otherwise dispatches through `inputActionFunctionByType`
(the `none` branch models the `TypeError` of calling `undefined` and is
unreachable: every input action type has an entry). -/
def inputActionFunction (actionName : String) (actionType : String) :
    Except String String :=
  if !isInputAction actionType then
    .error ("Invalid action type: " ++ actionType)
  else
    match inputActionFunctionByType actionType with
    | some f => .ok (f (canonicalizedActionName actionName))
    | none => .error "TypeError: inputActionFunctionByType[actionType] is not a function"

/-- Effectful `Array.prototype.map` with a throwing callback: the first throw
propagates, otherwise the list of results is returned. -/
def mapE (f : α → Except ε β) : List α → Except ε (List β)
  | [] => .ok []
  | a :: as =>
      match f a with
      | .error e => .error e
      | .ok b =>
          match mapE f as with
          | .error e => .error e
          | .ok bs => .ok (b :: bs)

/-- `initFunction`: returns `""` immediately (the code after the first
`return` statement in the source is unreachable). -/
def initFunction (_actionManifest : ActionManifest) : String := ""

/-- `inputActionFunctions`: accessor functions for the input-typed actions
only, joined with blank lines. -/
def inputActionFunctions (actionManifest : ActionManifest) :
    Except String String :=
  (mapE (fun action => inputActionFunction action.name action.type)
      (actionManifest.actions.filter (fun action => isInputAction action.type))).map
    (joinSep "\n\n")

/-- The per-action-set template inside `activationFunctions`. -/
def activationFunctionPair (actionSet : ActionSet) : String :=
  "\n            pub fn activate_" ++ canonicalizedActionSetName actionSet.name ++
  "(&mut self) \x7b\n                self.activate_action_set(self.generated_fields.action_set_handle_"
  ++ canonicalizedActionSetName actionSet.name ++
  ")\n            \x7d\n\n            pub fn deactivate_" ++
  canonicalizedActionSetName actionSet.name ++
  "(&mut self) \x7b\n                // Deactivation logic for " ++ actionSet.name ++
  "\n                self.deactivate_action_set(self.generated_fields.action_set_handle_"
  ++ canonicalizedActionSetName actionSet.name ++ ")\n            \x7d\n        "

/-- `activationFunctions`. -/
def activationFunctions (actionManifest : ActionManifest) : String :=
  joinSep "\n" (actionManifest.action_sets.map activationFunctionPair)

/-- One element of `actionDeclarations` in `fieldGenerationFunction`. -/
def actionDeclaration (action : Action) : String :=
  "\n            let action_handle_" ++ canonicalizedActionName action.name ++
  " = Self::get_action_handle(sys, \"" ++ action.name ++ "\")?;\n        "

/-- One element of `actionFields` in `fieldGenerationFunction`. -/
def actionField (action : Action) : String :=
  "\n            action_handle_" ++ canonicalizedActionName action.name ++ ",\n        "

/-- One element of `actionSetDeclarations` in `fieldGenerationFunction`. -/
def actionSetDeclaration (actionSet : ActionSet) : String :=
  "\n            let action_set_handle_" ++ canonicalizedActionSetName actionSet.name ++
  " = Self::get_action_set_handle(sys, \"" ++ actionSet.name ++ "\")?;\n        "

/-- One element of `actionSetFields` in `fieldGenerationFunction`. -/
def actionSetField (actionSet : ActionSet) : String :=
  "\n            action_set_handle_" ++ canonicalizedActionSetName actionSet.name ++
  ",\n        "

/-- `fieldGenerationFunction`. -/
def fieldGenerationFunction (actionManifest : ActionManifest) : String :=
  "\n        fn generate_fields(sys: &sys::VR_IVRInput_FnTable) -> Result<GeneratedFields> \x7b\n            "
  ++ joinSep "\n" (actionManifest.actions.map actionDeclaration)
  ++ ("\n            "
    ++ joinSep "\n" (actionManifest.action_sets.map actionSetDeclaration)
    ++ ("\n\n            Ok(GeneratedFields \x7b\n                "
      ++ joinSep "\n" (actionManifest.actions.map actionField)
      ++ ("\n                "
        ++ joinSep "\n" (actionManifest.action_sets.map actionSetField)
        ++ "\n            \x7d)\n        \x7d\n    ")))

/-- One element of `generatedActionFields` in `generatedFields`. -/
def generatedActionField (action : Action) : String :=
  "\n            action_handle_" ++ canonicalizedActionName action.name ++
  ": sys::VRActionHandle_t,\n        "

/-- One element of `generatedActionSetFields` in `generatedFields`. -/
def generatedActionSetField (actionSet : ActionSet) : String :=
  "\n            action_set_handle_" ++ canonicalizedActionSetName actionSet.name ++
  ": sys::VRActionSetHandle_t,\n        "

/-- `generatedFields`. -/
def generatedFields (actionManifest : ActionManifest) : String :=
  "\n        struct GeneratedFields \x7b\n            "
  ++ joinSep "\n" (actionManifest.actions.map generatedActionField)
  ++ ("\n            "
    ++ joinSep "\n" (actionManifest.action_sets.map generatedActionSetField)
    ++ "\n        \x7d\n    ")

/-- `code`: the untrimmed template body. -/
def codeBody (actionManifest : ActionManifest) (iaf : String) : String :=
  "\n        impl Input \x7b\n            " ++ initFunction actionManifest
  ++ "\n            " ++ fieldGenerationFunction actionManifest
  ++ "\n            " ++ iaf
  ++ "\n            " ++ activationFunctions actionManifest
  ++ "\n        \x7d\n\n        " ++ generatedFields actionManifest ++ "\n    "

/-- `code`: assembles the generated unit for a manifest and applies `.trim()`;
throws whatever `inputActionFunctions` throws. -/
def code (actionManifest : ActionManifest) : Except String String :=
  match inputActionFunctions actionManifest with
  | .error e => .error e
  | .ok iaf => .ok (jsTrim (codeBody actionManifest iaf))

/-- The `generationNotice` literal of the generator `main`. -/
def generationNotice : String :=
  "// This file is generated by utils/generate_action_codes.ts. Do not edit it manually.\n\n"

/-- The generator entry point `main` of `utils/generate_action_codes.ts`,
after argument parsing: reads and schema-`parse`s the manifest (any
read/JSON/schema failure throws), reads the prelude and strips its stub
region, generates, and performs the single write of the whole run, returned
as the pair (output path, written text).  `Except.error` is a thrown
exception: no write happens. -/
def generatorMain (fs : String → Option String) (jsonParse : String → Option Json)
    (manifestPath preludePath generatedPath : String) :
    Except Unit (String × String) :=
  match fs manifestPath with
  | none => .error ()
  | some manifestText =>
      match jsonParse manifestText with
      | none => .error ()
      | some manifestJson =>
          match parseActionManifest manifestJson with
          | none => .error ()
          | some actionManifest =>
              match fs preludePath with
              | none => .error ()
              | some preludeText =>
                  match code actionManifest with
                  | .error _ => .error ()
                  | .ok generatedCode =>
                      .ok (generatedPath,
                        flatCode (generationNotice ++ stripStub preludeText
                          ++ generatedCode))

/-- The file system after a run of the generator: on success exactly the
output file is (over)written; a thrown exception leaves every file as it was. -/
def runGenerator (fs : String → Option String) (jsonParse : String → Option Json)
    (manifestPath preludePath generatedPath : String) : String → Option String :=
  match generatorMain fs jsonParse manifestPath preludePath generatedPath with
  | .error _ => fs
  | .ok (p, content) => fun q => if q = p then some content else fs q

/-! ## Validator (`packages/oscpie/utils/validate_action_manifests.ts`). -/

/-- `validateBindings`: `JSON.parse(Deno.readTextFileSync(bindingPath))`
throws (`Except.error`) when the file is unreadable or not valid JSON; a
falsy parse or a failed `safeParse` yields `VALIDATION_FAILED`
(`Except.ok none`). -/
def validateBindings (readJson : String → Option Json) (bindingPath : String) :
    Except Unit (Option BindingFile) :=
  match readJson bindingPath with
  | none => .error ()
  | some binding =>
      if !binding.truthy then .ok none
      else
        match parseBindingFile binding with
        | none => .ok none
        | some data => .ok (some data)

/-- The `missingActions` set of the localization loop after the deletion
pass, up to the order and multiplicity the JavaScript `Set` discards: the
action names not covered by the entry's keys other than `language_tag`
(`Localization.entries` holds exactly those keys).  `missingActions.size > 0`
in the source is `≠ []` here. -/
def missingActions (actions : List Action) (loc : Localization) : List String :=
  (actions.map (fun a => a.name)).filter
    (fun n => !(loc.entries.map (fun kv => kv.1)).contains n)

/-- The `for (const localization of ...)` loop: at the first entry with a
non-empty missing set the run fails when `allow-missing-localization` is off;
otherwise the deficiency is only reported and the loop continues. -/
def checkLocalizations (actions : List Action) (allowMissing : Bool) :
    List Localization → Bool
  | [] => true
  | loc :: rest =>
      if !(missingActions actions loc).isEmpty && !allowMissing then false
      else checkLocalizations actions allowMissing rest

/-- The `for (const defaultBinding of ...)` loop: each `binding_url` is
resolved against the manifest's directory and validated; a throw inside
`validateBindings` propagates, a `VALIDATION_FAILED` result fails the whole
validation.  (The cross-check that every action has a binding is commented
out in the source and therefore absent here.) -/
def checkDefaultBindings (readJson : String → Option Json)
    (resolveUrl : String → String) (data : ActionManifest) :
    List DefaultBinding → Except Unit (Option ActionManifest)
  | [] => .ok (some data)
  | db :: rest =>
      match validateBindings readJson (resolveUrl db.binding_url) with
      | .error e => .error e
      | .ok none => .ok none
      | .ok (some _) => checkDefaultBindings readJson resolveUrl data rest

/-- `validateManifest`: read+parse (throwing), truthiness gate, zod
`safeParse`, the localization loop, then the default-binding loop.
`dirname` and `resolve` model `path.dirname` / `path.resolve` of
`jsr:@std/path`. -/
def validateManifest (readJson : String → Option Json)
    (dirname : String → String) (resolve : String → String → String)
    (manifestPath : String) (allowMissingLocalization : Bool) :
    Except Unit (Option ActionManifest) :=
  match readJson manifestPath with
  | none => .error ()
  | some manifest =>
      if !manifest.truthy then .ok none
      else
        match parseActionManifest manifest with
        | none => .ok none
        | some data =>
            if !checkLocalizations data.actions allowMissingLocalization
                data.localization then .ok none
            else
              checkDefaultBindings readJson
                (resolve (dirname manifestPath)) data data.default_bindings

/-! ## Helper notions used by the statements. -/

/-- `strIn x y`: the text `x` occurs contiguously inside the text `y`. -/
def strIn (x y : String) : Prop :=
  ∃ s t : List Char, s ++ x.data ++ t = y.data

/-- Executable occurrence test, for concrete evaluations. -/
def strInB (x y : String) : Bool :=
  decide (x.data <:+: y.data)

/-- Did the computation finish without a thrown exception? -/
def exceptIsOk : Except ε α → Bool
  | .ok _ => true
  | .error _ => false

/-- The successful result, or a default. -/
def exceptGetD (e : Except ε α) (d : α) : α :=
  match e with
  | .ok a => a
  | .error _ => d

/-- Modelled from the spec: strip at most one leading underscore
(spec wording of the second canonicalization step). -/
def stripOneLeading (l : List Char) : List Char :=
  if l.head? = some '_' then l.tail else l

/-- Modelled from the spec: replace every slash with an underscore, then
strip at most one leading underscore (the spec's contract for the
canonicalizer, to be compared with the source functions). -/
def canonicalizeSpec (s : String) : String :=
  String.mk (stripOneLeading (s.data.map (fun c => if c = '/' then '_' else c)))

/-- A string already in canonical form: no slash anywhere, no leading
underscore. -/
def isCanonicalForm (x : String) : Bool :=
  !x.data.contains '/' && x.data.head? != some '_'

/-! ## Concrete sample inputs used by witnesses and counterexamples. -/

/-- A schema-valid manifest with actions `/a` (boolean) and `/b`
(vibration), one action set, and a localization entry covering only `/a`. -/
def sampleManifestJson : Json := .obj [
  ("default_bindings", .arr []),
  ("actions", .arr [
    .obj [("name", .str "/a"), ("type", .str "boolean")],
    .obj [("name", .str "/b"), ("type", .str "vibration")]]),
  ("action_sets", .arr [.obj [("name", .str "/actions/main"), ("usage", .str "single")]]),
  ("localization", .arr [.obj [("language_tag", .str "en"), ("/a", .str "A")]])]

/-- The parsed value of `sampleManifestJson`. -/
def sampleManifest : ActionManifest :=
  ⟨[], [⟨"/a", none, "boolean", none⟩, ⟨"/b", none, "vibration", none⟩],
    [⟨"/actions/main", "single"⟩], [⟨"en", [("/a", "A")]⟩]⟩

/-- A file system holding the sample manifest text and a prelude with a stub
region. -/
def sampleFs : String → Option String := fun p =>
  if p = "m.json" then some "MANIFEST"
  else if p = "p.rs" then some "prelude line\n// STUB_FOLLOWS\nstub body"
  else none

/-- A `JSON.parse` oracle for the sample manifest text. -/
def sampleJsonParse : String → Option Json := fun t =>
  if t = "MANIFEST" then some sampleManifestJson else none

/-- The composite `p ↦ JSON.parse(Deno.readTextFileSync(p))` for the sample
file system. -/
def sampleReadJson : String → Option Json := fun p =>
  (sampleFs p).bind sampleJsonParse

/-- A schema-valid manifest whose only `default_bindings` entry points at
`missing.json`, a file that does not exist. -/
def missingBindingManifestJson : Json := .obj [
  ("default_bindings", .arr [
    .obj [("controller_type", .str "knuckles"), ("binding_url", .str "missing.json")]]),
  ("actions", .arr []),
  ("action_sets", .arr []),
  ("localization", .arr [])]

/-- A read oracle that only knows the manifest above: reading any other
path (in particular the resolved `./missing.json`) throws. -/
def missingBindingReadJson : String → Option Json := fun p =>
  if p = "manifest.json" then some missingBindingManifestJson else none

/-- Concrete `path.dirname`: every sample manifest lives in `.`. -/
def sampleDirname : String → String := fun _ => "."

/-- Concrete `path.resolve` for the samples. -/
def sampleResolve : String → String → String := fun d u => d ++ "/" ++ u

/-- A manifest value holding an action whose `type` has no generation rule
(representable at the erased runtime level; the zod schema would reject it). -/
def unknownTypeManifest : ActionManifest :=
  ⟨[], [⟨"/x", none, "unknown_type", none⟩], [], []⟩

/-! ## General lemmas. -/

theorem strIn_self (x : String) : strIn x x :=
  ⟨[], [], by simp⟩

theorem strIn_append_left (a : String) {x y : String} (h : strIn x y) :
    strIn x (a ++ y) := by
  obtain ⟨s, t, hst⟩ := h
  exact ⟨a.data ++ s, t, by simp [String.data_append, hst, List.append_assoc]⟩

theorem strIn_append_right (b : String) {x y : String} (h : strIn x y) :
    strIn x (y ++ b) := by
  obtain ⟨s, t, hst⟩ := h
  exact ⟨s, t ++ b.data, by simp [String.data_append, ← hst, List.append_assoc]⟩

theorem strIn_trans {x y z : String} (h1 : strIn x y) (h2 : strIn y z) :
    strIn x z := by
  obtain ⟨s, t, hst⟩ := h1
  obtain ⟨u, v, huv⟩ := h2
  exact ⟨u ++ s, t ++ v, by simp [← hst, ← huv, List.append_assoc]⟩

theorem strIn_congr {x y y' : String} (h : y = y') (hx : strIn x y) :
    strIn x y' := h ▸ hx

/-- The central occurrence of `n` in `A ++ n ++ B` can be widened to the
claimed fragment `p ++ n ++ q` once `A` ends in `p` and `B` starts with `q`. -/
theorem strIn_extract (a' b' : String) {A B p q n : String}
    (h1 : A = a' ++ p) (h2 : B = q ++ b') :
    strIn (p ++ n ++ q) (A ++ n ++ B) := by
  subst h1; subst h2
  refine ⟨a'.data, b'.data, ?_⟩
  simp [String.data_append, List.append_assoc]

theorem strIn_joinSep {x : String} {l : List String} (sep : String)
    (h : x ∈ l) : strIn x (joinSep sep l) := by
  induction l with
  | nil => cases h
  | cons y ys ih =>
      rcases List.mem_cons.mp h with rfl | hmem
      · cases ys with
        | nil => exact strIn_self x
        | cons z zs =>
            exact strIn_append_right _ (strIn_append_right _ (strIn_self x))
      · cases ys with
        | nil => cases hmem
        | cons z zs => exact strIn_append_left _ (ih hmem)

theorem mapE_ok_of_mem {f : α → Except ε β} {l : List α} {ys : List β}
    (hl : mapE f l = .ok ys) {a : α} (ha : a ∈ l) :
    ∃ y ∈ ys, f a = .ok y := by
  induction l generalizing ys with
  | nil => cases ha
  | cons x xs ih =>
      rcases hfx : f x with e | b
      · rw [mapE, hfx] at hl; cases hl
      · rw [mapE, hfx] at hl
        rcases hxs : mapE f xs with e | bs
        · rw [hxs] at hl; cases hl
        · rw [hxs] at hl
          injection hl with hl
          subst hl
          rcases List.mem_cons.mp ha with rfl | ha
          · exact ⟨b, List.mem_cons_self _ _, hfx⟩
          · obtain ⟨y, hy, hfa⟩ := ih hxs ha
            exact ⟨y, List.mem_cons_of_mem _ hy, hfa⟩

/-! ## Claim theorems. -/

/-- C6: `canonicalizedActionName` (and the textually identical
`canonicalizedActionSetName`) realizes the contract "replace every `/` by
`_`, then strip at most one leading `_`", and satisfies the three quoted
examples. -/
theorem canonicalize_contract :
    (∀ s : String, canonicalizedActionName s = canonicalizeSpec s)
    ∧ (∀ s : String, canonicalizedActionSetName s = canonicalizedActionName s)
    ∧ canonicalizedActionName "/foo/bar" = "foo_bar"
    ∧ canonicalizedActionName "foo/bar" = "foo_bar"
    ∧ canonicalizedActionName "/foo" = "foo" := by
  have hmap : ∀ l : List Char,
      replaceSlashes l = l.map (fun c => if c = '/' then '_' else c) := by
    intro l
    induction l with
    | nil => rfl
    | cons c cs ih => simp [replaceSlashes, ih]
  have hdrop : ∀ l : List Char, dropLeadUnderscore l = stripOneLeading l := by
    intro l
    cases l with
    | nil => rfl
    | cons c cs =>
        by_cases hc : c = '_'
        · subst hc; rfl
        · have h1 : dropLeadUnderscore (c :: cs) = c :: cs := by
            rw [dropLeadUnderscore.eq_def]
            split
            · rename_i heq
              injection heq with heq1 _
              exact absurd heq1 hc
            · rfl
          rw [h1, stripOneLeading]
          simp [hc]
  refine ⟨?_, fun s => rfl, by decide, by decide, by decide⟩
  intro s
  simp [canonicalizedActionName, canonicalizeSpec, hmap, hdrop]

/-- C7: on strings already in canonical form (no slash, no leading
underscore) the canonicalizer is idempotent. -/
theorem canonicalize_idempotent (x : String)
    (h : isCanonicalForm x = true) :
    canonicalizedActionName (canonicalizedActionName x)
      = canonicalizedActionName x := by
  have hfix : canonicalizedActionName x = x := by
    have h' : ¬ '/' ∈ x.data ∧ x.data.head? ≠ some '_' := by
      simpa [isCanonicalForm] using h
    obtain ⟨hslash, hhead⟩ := h'
    have hrepl : replaceSlashes x.data = x.data := by
      have key : ∀ l : List Char, '/' ∉ l → replaceSlashes l = l := by
        intro l
        induction l with
        | nil => intro _; rfl
        | cons c cs ih =>
            intro hl
            have hc : ¬ c = '/' := fun hcc =>
              hl (hcc ▸ List.mem_cons_self c cs)
            simp [replaceSlashes, hc,
              ih (fun hm => hl (List.mem_cons_of_mem _ hm))]
      exact key _ hslash
    have hdrop : dropLeadUnderscore x.data = x.data := by
      rw [dropLeadUnderscore.eq_def]
      split
      · rename_i heq
        rw [heq] at hhead
        simp at hhead
      · rfl
    show String.mk (dropLeadUnderscore (replaceSlashes x.data)) = x
    rw [hrepl, hdrop]
  rw [hfix]
  exact hfix

/-- Witness for C7 at the concrete canonical string `foo_bar`. -/
theorem canonicalize_idempotent_witness :
    canonicalizedActionName (canonicalizedActionName "foo_bar")
      = canonicalizedActionName "foo_bar" :=
  canonicalize_idempotent "foo_bar" (by decide)

/-! ## Lemmas about the whitespace-normalization primitives. -/

theorem splitNl_ne_nil (s : List Char) : splitNl s ≠ [] := by
  induction s with
  | nil => simp [splitNl]
  | cons c cs ih =>
      rw [splitNl]
      by_cases hc : c = '\n'
      · simp [hc]
      · rw [if_neg hc]
        rcases hsp : splitNl cs with _ | ⟨l, ls⟩
        · exact absurd hsp ih
        · simp

theorem splitNl_no_nl : ∀ {l : List Char}, '\n' ∉ l → splitNl l = [l] := by
  intro l
  induction l with
  | nil => intro _; rfl
  | cons c cs ih =>
      intro h
      have hc : ¬ c = '\n' := fun hcc => h (by rw [hcc]; exact List.mem_cons_self _ _)
      rw [splitNl, if_neg hc, ih (fun hm => h (List.mem_cons_of_mem _ hm))]

theorem splitNl_append : ∀ {l : List Char} (r : List Char), '\n' ∉ l →
    splitNl (l ++ '\n' :: r) = l :: splitNl r := by
  intro l
  induction l with
  | nil => intro r _; simp [splitNl]
  | cons c cs ih =>
      intro r h
      have hc : ¬ c = '\n' := fun hcc => h (by rw [hcc]; exact List.mem_cons_self _ _)
      rw [List.cons_append, splitNl, if_neg hc,
        ih r (fun hm => h (List.mem_cons_of_mem _ hm))]

theorem mem_splitNl_no_nl : ∀ {s piece : List Char}, piece ∈ splitNl s →
    '\n' ∉ piece := by
  intro s
  induction s with
  | nil =>
      intro piece h
      rw [splitNl] at h
      rcases List.mem_cons.mp h with rfl | h
      · simp
      · cases h
  | cons c cs ih =>
      intro piece h
      rw [splitNl] at h
      by_cases hc : c = '\n'
      · rw [if_pos hc] at h
        rcases List.mem_cons.mp h with rfl | h
        · simp
        · exact ih h
      · rw [if_neg hc] at h
        rcases hsp : splitNl cs with _ | ⟨l, ls⟩
        · exact absurd hsp (splitNl_ne_nil cs)
        · rw [hsp] at h
          rcases List.mem_cons.mp h with rfl | h
          · intro hmem
            rcases List.mem_cons.mp hmem with h1 | h1
            · exact hc h1.symm
            · exact ih (hsp ▸ List.mem_cons_self l ls) h1
          · exact ih (hsp ▸ List.mem_cons_of_mem l h)

theorem mem_trimLC {c : Char} {l : List Char} (h : c ∈ trimLC l) : c ∈ l := by
  unfold trimLC at h
  have h1 := List.mem_reverse.mp h
  have h2 := (List.dropWhile_sublist isWS).mem h1
  have h3 := List.mem_reverse.mp h2
  exact (List.dropWhile_sublist isWS).mem h3

theorem trimLC_idem (l : List Char) : trimLC (trimLC l) = trimLC l := by
  have hm : (l.dropWhile isWS).dropWhile isWS = l.dropWhile isWS :=
    List.dropWhile_idempotent _ _
  set m := l.dropWhile isWS with hmdef
  set w := ((m.reverse).dropWhile isWS).reverse with hwdef
  have hwm : w <+: m := by
    have h1 : (m.reverse).dropWhile isWS <:+ m.reverse := List.dropWhile_suffix _
    have h2 := List.reverse_prefix.mpr h1
    rwa [List.reverse_reverse] at h2
  have hA : w.dropWhile isWS = w := by
    cases hw : w with
    | nil => simp
    | cons c cs =>
        obtain ⟨t, ht⟩ := hwm
        rw [hw] at ht
        have hc : isWS c = false := by
          cases hq : isWS c with
          | false => rfl
          | true =>
              exfalso
              have hstep : m.dropWhile isWS = (cs ++ t).dropWhile isWS := by
                rw [← ht]
                simp [List.dropWhile_cons, hq]
              rw [hm] at hstep
              have hlen := congrArg List.length hstep
              have hle : ((cs ++ t).dropWhile isWS).length ≤ (cs ++ t).length :=
                (List.dropWhile_sublist isWS).length_le
              rw [← ht] at hlen
              simp [List.length_append] at hlen hle
              omega
        simp [List.dropWhile_cons, hc]
  have hB : w.reverse.dropWhile isWS = w.reverse := by
    rw [hwdef, List.reverse_reverse]
    exact List.dropWhile_idempotent _ _
  show ((w.dropWhile isWS).reverse.dropWhile isWS).reverse = w
  rw [hA, hB, List.reverse_reverse]

theorem splitNl_joinNl : ∀ {L : List (List Char)}, (∀ l ∈ L, '\n' ∉ l) →
    L ≠ [] → splitNl (joinNl L) = L := by
  intro L
  induction L with
  | nil => intro _ h; exact absurd rfl h
  | cons x xs ih =>
      intro h _
      cases xs with
      | nil =>
          show splitNl x = [x]
          exact splitNl_no_nl (h x (List.mem_cons_self _ _))
      | cons y ys =>
          show splitNl (x ++ '\n' :: joinNl (y :: ys)) = x :: y :: ys
          rw [splitNl_append _ (h x (List.mem_cons_self _ _)),
            ih (fun l hl => h l (List.mem_cons_of_mem _ hl)) (by simp)]

/-- C10: the whitespace normalization `flatCode` is idempotent, and every
line of a non-empty normalized artifact is non-empty and free of leading or
trailing whitespace. -/
theorem flatCode_idempotent :
    (∀ s : String, flatCode (flatCode s) = flatCode s)
    ∧ (∀ s : String, flatCode s ≠ "" →
        ∀ l ∈ splitNl (flatCode s).data, l ≠ [] ∧ trimLC l = l) := by
  have key : ∀ s : String,
      ∀ l ∈ ((splitNl s.data).map trimLC).filter (fun l => !l.isEmpty),
        l ≠ [] ∧ trimLC l = l ∧ '\n' ∉ l := by
    intro s l hl
    have hpl := List.mem_of_mem_filter hl
    have hne := List.of_mem_filter hl
    obtain ⟨piece, hpiece, rfl⟩ := List.mem_map.mp hpl
    refine ⟨?_, trimLC_idem piece, ?_⟩
    · intro hnil
      rw [hnil] at hne
      simp at hne
    · intro hmem
      exact mem_splitNl_no_nl hpiece (mem_trimLC hmem)
  constructor
  · intro s
    rcases hL : ((splitNl s.data).map trimLC).filter (fun l => !l.isEmpty)
      with _ | ⟨x, xs⟩
    · have h1 : flatCode s = String.mk [] := by
        show String.mk (joinNl (((splitNl s.data).map trimLC).filter
          (fun l => !l.isEmpty))) = String.mk []
        rw [hL]
        rfl
      rw [h1]
      rfl
    · have hLfacts := key s
      rw [hL] at hLfacts
      have hdata : (flatCode s).data = joinNl (x :: xs) := by
        show (String.mk (joinNl (((splitNl s.data).map trimLC).filter
          (fun l => !l.isEmpty)))).data = _
        rw [hL]
      have hnl : ∀ l ∈ x :: xs, '\n' ∉ l := fun l hl => (hLfacts l hl).2.2
      have hsplit : splitNl (flatCode s).data = x :: xs := by
        rw [hdata]
        exact splitNl_joinNl hnl (by simp)
      have hmap : (x :: xs).map trimLC = x :: xs := by
        rw [List.map_congr_left (fun a ha => (hLfacts a ha).2.1)]
        exact List.map_id _
      have hfilter : (x :: xs).filter (fun l => !l.isEmpty) = x :: xs := by
        rw [List.filter_eq_self.mpr]
        intro a ha
        have h1 := (hLfacts a ha).1
        simp [List.isEmpty_iff, h1]
      calc flatCode (flatCode s)
          = String.mk (joinNl (((splitNl (flatCode s).data).map trimLC).filter
              (fun l => !l.isEmpty))) := rfl
        _ = String.mk (joinNl (x :: xs)) := by rw [hsplit, hmap, hfilter]
        _ = flatCode s := by
              show _ = String.mk (joinNl (((splitNl s.data).map trimLC).filter
                (fun l => !l.isEmpty)))
              rw [hL]
  · intro s hne l hl
    rcases hL : ((splitNl s.data).map trimLC).filter (fun l => !l.isEmpty)
      with _ | ⟨x, xs⟩
    · exfalso
      apply hne
      show String.mk (joinNl (((splitNl s.data).map trimLC).filter
        (fun l => !l.isEmpty))) = ""
      rw [hL]
      rfl
    · have hLfacts := key s
      rw [hL] at hLfacts
      have hdata : (flatCode s).data = joinNl (x :: xs) := by
        show (String.mk (joinNl (((splitNl s.data).map trimLC).filter
          (fun l => !l.isEmpty)))).data = _
        rw [hL]
      rw [hdata, splitNl_joinNl (fun a ha => (hLfacts a ha).2.2) (by simp)] at hl
      exact ⟨(hLfacts l hl).1, (hLfacts l hl).2.1⟩

/-- Witness for C10 at a concrete string with interior whitespace and blank
lines. -/
theorem flatCode_idempotent_witness :
    flatCode (flatCode "  a b \n\n   c\n") = flatCode "  a b \n\n   c\n"
    ∧ (flatCode "  a b \n\n   c\n" ≠ "" →
        ∀ l ∈ splitNl (flatCode "  a b \n\n   c\n").data, l ≠ [] ∧ trimLC l = l) :=
  ⟨flatCode_idempotent.1 "  a b \n\n   c\n",
    flatCode_idempotent.2 "  a b \n\n   c\n"⟩

/-! ## Lemmas about the validator. -/

theorem truthy_of_parse {j : Json} {m : ActionManifest}
    (h : parseActionManifest j = some m) : j.truthy = true := by
  cases j with
  | obj fields => rfl
  | null => simp [parseActionManifest] at h
  | bool b => simp [parseActionManifest] at h
  | num n => simp [parseActionManifest] at h
  | str s => simp [parseActionManifest] at h
  | arr es => simp [parseActionManifest] at h

theorem checkLocalizations_allow (actions : List Action) :
    ∀ locs : List Localization, checkLocalizations actions true locs = true := by
  intro locs
  induction locs with
  | nil => rfl
  | cons loc rest ih => simp [checkLocalizations, ih]

theorem checkLocalizations_deficient {actions : List Action}
    {locs : List Localization} {loc : Localization} (hmem : loc ∈ locs)
    (hmiss : missingActions actions loc ≠ []) :
    checkLocalizations actions false locs = false := by
  induction locs with
  | nil => cases hmem
  | cons l rest ih =>
      rw [checkLocalizations]
      by_cases hl : (missingActions actions l).isEmpty = true
      · rcases List.mem_cons.mp hmem with rfl | hmem'
        · exact absurd (List.isEmpty_iff.mp hl) hmiss
        · simp [hl, ih hmem']
      · have hl' : (missingActions actions l).isEmpty = false := by
          cases hq : (missingActions actions l).isEmpty
          · rfl
          · exact absurd hq hl
        simp [hl']

/-- C1 (code slip, exercised at the failing input): on an unreadable or
invalid-JSON input file `validateManifest` and `validateBindings` throw the
`JSON.parse`/`readTextFileSync` exception (modelled `.error ()`), instead of
returning the `VALIDATION_FAILED` result (`.ok none`); in particular a
manifest whose `default_bindings` entry resolves to a nonexistent file makes
`validateManifest` throw rather than report a binding-resolution failure. -/
theorem validateManifest_throws_instead_of_failing :
    validateManifest missingBindingReadJson sampleDirname sampleResolve
      "manifest.json" false = .error ()
    ∧ validateManifest missingBindingReadJson sampleDirname sampleResolve
      "absent.json" false = .error ()
    ∧ validateBindings missingBindingReadJson "./missing.json" = .error () :=
  ⟨rfl, rfl, rfl⟩

/-- C3: for a readable manifest that passes the schema, localization
coverage is checked per entry as a set difference; with the flag off a
deficient entry fails validation, with the flag on validation proceeds
directly to the default-binding phase. -/
theorem validateManifest_localization_coverage :
    ∀ (readJson : String → Option Json) (dirname : String → String)
      (resolve : String → String → String) (mp : String) (j : Json)
      (m : ActionManifest),
      readJson mp = some j → parseActionManifest j = some m →
      ((∃ loc ∈ m.localization, missingActions m.actions loc ≠ []) →
          validateManifest readJson dirname resolve mp false = .ok none)
      ∧ (validateManifest readJson dirname resolve mp true =
          checkDefaultBindings readJson (resolve (dirname mp)) m
            m.default_bindings) := by
  intro readJson dirname resolve mp j m hrj hpm
  have htr : j.truthy = true := truthy_of_parse hpm
  constructor
  · rintro ⟨loc, hloc, hmiss⟩
    simp [validateManifest, hrj, htr, hpm,
      checkLocalizations_deficient hloc hmiss]
  · simp [validateManifest, hrj, htr, hpm, checkLocalizations_allow]

/-- Witness for C3: the manifest with actions `/a`, `/b` and a localization
covering only `/a` fails with the flag off and succeeds with the flag on. -/
theorem validateManifest_localization_coverage_witness :
    validateManifest sampleReadJson sampleDirname sampleResolve "m.json" false
      = .ok none
    ∧ validateManifest sampleReadJson sampleDirname sampleResolve "m.json" true
      = .ok (some sampleManifest) := by
  have h := validateManifest_localization_coverage sampleReadJson sampleDirname
    sampleResolve "m.json" sampleManifestJson sampleManifest rfl rfl
  exact ⟨h.1 ⟨⟨"en", [("/a", "A")]⟩, by decide, by decide⟩, h.2.trans rfl⟩

/-! ## Lemmas about the generator entry point. -/

theorem generatorMain_ok_path {fs : String → Option String}
    {jsonParse : String → Option Json} {mp pp gp p c : String}
    (h : generatorMain fs jsonParse mp pp gp = .ok (p, c)) : p = gp := by
  unfold generatorMain at h
  cases hfs : fs mp with
  | none => rw [hfs] at h; cases h
  | some mt =>
      simp only [hfs] at h
      cases hjp : jsonParse mt with
      | none => rw [hjp] at h; cases h
      | some mj =>
          simp only [hjp] at h
          cases hpm : parseActionManifest mj with
          | none => rw [hpm] at h; cases h
          | some m =>
              simp only [hpm] at h
              cases hpp : fs pp with
              | none => rw [hpp] at h; cases h
              | some pt =>
                  simp only [hpp] at h
                  cases hc : code m with
                  | error e => rw [hc] at h; cases h
                  | ok g =>
                      simp only [hc] at h
                      injection h with h1
                      injection h1 with h2 h3
                      exact h2.symm

/-- C2 (amended): the generator run touches no file other than the output
path, and when the manifest stage (read, JSON parse, or schema parse) or the
prelude read fails, the run aborts before generation and the file system is
left completely untouched. -/
theorem generatorMain_no_partial_output :
    ∀ (fs : String → Option String) (jsonParse : String → Option Json)
      (mp pp gp : String),
      (∀ q, q ≠ gp → runGenerator fs jsonParse mp pp gp q = fs q)
      ∧ ((((fs mp).bind jsonParse).bind parseActionManifest = none
            ∨ fs pp = none) →
          ∀ q, runGenerator fs jsonParse mp pp gp q = fs q) := by
  intro fs jsonParse mp pp gp
  constructor
  · intro q hq
    unfold runGenerator
    cases hg : generatorMain fs jsonParse mp pp gp with
    | error e => rfl
    | ok pc =>
        obtain ⟨p, c⟩ := pc
        have hp := generatorMain_ok_path hg
        subst hp
        simp [hq]
  · intro hfail q
    have herr : generatorMain fs jsonParse mp pp gp = .error () := by
      unfold generatorMain
      cases hfs : fs mp with
      | none => rfl
      | some mt =>
          simp only [hfs]
          cases hjp : jsonParse mt with
          | none => rfl
          | some mj =>
              simp only [hjp]
              cases hpm : parseActionManifest mj with
              | none => rfl
              | some m =>
                  simp only [hpm]
                  cases hpp : fs pp with
                  | none => rfl
                  | some pt =>
                      exfalso
                      rcases hfail with hfail | hfail
                      · rw [hfs] at hfail
                        simp [hjp, hpm] at hfail
                      · rw [hfail] at hpp
                        cases hpp
    unfold runGenerator
    rw [herr]

/-- Witness for C2 (amended) on an empty file system: the untouched-output
guarantees at a non-output path and after a failing manifest stage. -/
theorem generatorMain_no_partial_output_witness :
    runGenerator (fun _ => none) (fun _ => none) "m" "p" "o" "other" = none
    ∧ runGenerator (fun _ => none) (fun _ => none) "m" "p" "o" "o" = none := by
  constructor
  · exact (generatorMain_no_partial_output (fun _ => none) (fun _ => none)
      "m" "p" "o").1 "other" (by decide)
  · exact (generatorMain_no_partial_output (fun _ => none) (fun _ => none)
      "m" "p" "o").2 (Or.inl rfl) "o"

/-- Counterexample for C2 as stated: on the very same inputs the validator
fails (localization coverage, flag off), yet the generator entry point runs
to completion and writes its output — validator failures other than schema
violations do not fail the generator run. -/
theorem generator_ignores_validator_failure :
    validateManifest sampleReadJson sampleDirname sampleResolve "m.json" false
      = .ok none
    ∧ exceptIsOk (generatorMain sampleFs sampleJsonParse "m.json" "p.rs" "out.rs")
      = true :=
  ⟨rfl, rfl⟩

/-! ## Lemmas about generation totality and the schema's type enum. -/

theorem mapO_mem {f : α → Option β} {l : List α} {ys : List β}
    (hl : mapO f l = some ys) {b : β} (hb : b ∈ ys) :
    ∃ x ∈ l, f x = some b := by
  induction l generalizing ys with
  | nil =>
      rw [mapO] at hl
      injection hl with hl
      subst hl
      cases hb
  | cons x xs ih =>
      rw [mapO] at hl
      cases hfx : f x with
      | none => rw [hfx] at hl; cases hl
      | some b' =>
          rw [hfx] at hl
          cases hxs : mapO f xs with
          | none => rw [hxs] at hl; cases hl
          | some bs =>
              rw [hxs] at hl
              injection hl with hl
              subst hl
              rcases List.mem_cons.mp hb with rfl | hb'
              · exact ⟨x, List.mem_cons_self _ _, hfx⟩
              · obtain ⟨y, hy, hfy⟩ := ih hxs hb'
                exact ⟨y, List.mem_cons_of_mem _ hy, hfy⟩

theorem parseEnum_mem {options : List String} {j : Json} {s : String}
    (h : parseEnum options j = some s) : s ∈ options := by
  cases j with
  | str t =>
      rw [parseEnum] at h
      simp only [parseStr] at h
      by_cases hc : options.contains t = true
      · rw [if_pos hc] at h
        injection h with h
        subst h
        simpa using hc
      · rw [if_neg hc] at h
        cases h
  | null => cases h
  | bool b => cases h
  | num n => cases h
  | arr es => cases h
  | obj fs => cases h

theorem parseAction_type {j : Json} {a : Action}
    (h : parseAction j = some a) : a.type ∈ ACTION_TYPES := by
  cases j with
  | obj fields =>
      rw [parseAction] at h
      cases h1 : parseReqField fields "name" parseStr with
      | none => rw [h1] at h; cases h
      | some name =>
          simp only [h1] at h
          cases h2 : parseOptField fields "requirement"
              (parseEnum ["mandatory", "optional", "suggested"]) with
          | none => rw [h2] at h; cases h
          | some requirement =>
              simp only [h2] at h
              cases h3 : parseReqField fields "type" (parseEnum ACTION_TYPES) with
              | none => rw [h3] at h; cases h
              | some ty =>
                  simp only [h3] at h
                  cases h4 : parseOptField fields "skeleton" parseStr with
                  | none => rw [h4] at h; cases h
                  | some skeleton =>
                      simp only [h4] at h
                      injection h with h
                      subst h
                      rw [parseReqField] at h3
                      cases h5 : Json.getKey fields "type" with
                      | none => rw [h5] at h3; cases h3
                      | some v =>
                          rw [h5] at h3
                          exact parseEnum_mem h3
  | null => cases h
  | bool b => cases h
  | num n => cases h
  | str s => cases h
  | arr es => cases h

theorem parseActionManifest_action_types {j : Json} {m : ActionManifest}
    (h : parseActionManifest j = some m) :
    ∀ a ∈ m.actions, a.type ∈ ACTION_TYPES := by
  cases j with
  | obj fields =>
      rw [parseActionManifest] at h
      cases h1 : parseReqField fields "default_bindings"
          (parseArr parseDefaultBinding) with
      | none => rw [h1] at h; cases h
      | some dbs =>
          simp only [h1] at h
          cases h2 : parseReqField fields "actions" (parseArr parseAction) with
          | none => rw [h2] at h; cases h
          | some acts =>
              simp only [h2] at h
              cases h3 : parseReqField fields "action_sets"
                  (parseArr parseActionSet) with
              | none => rw [h3] at h; cases h
              | some sets =>
                  simp only [h3] at h
                  cases h4 : parseReqField fields "localization"
                      (parseArr parseLocalization) with
                  | none => rw [h4] at h; cases h
                  | some locs =>
                      simp only [h4] at h
                      injection h with h
                      subst h
                      intro a ha
                      rw [parseReqField] at h2
                      cases h5 : Json.getKey fields "actions" with
                      | none => rw [h5] at h2; cases h2
                      | some v =>
                          rw [h5] at h2
                          cases v with
                          | arr elems =>
                              simp only [parseArr] at h2
                              obtain ⟨x, _, hxa⟩ := mapO_mem h2 ha
                              exact parseAction_type hxa
                          | null => cases h2
                          | bool b => cases h2
                          | num n => cases h2
                          | str s => cases h2
                          | obj fs => cases h2
  | null => cases h
  | bool b => cases h
  | num n => cases h
  | str s => cases h
  | arr es => cases h

theorem inputActionFunction_ok {t : String} (n : String)
    (h : isInputAction t = true) :
    ∃ s, inputActionFunction n t = .ok s := by
  have hmem : t = "boolean" ∨ t = "vector1" ∨ t = "vector2" ∨ t = "vector3"
      ∨ t = "pose" ∨ t = "skeleton" := by
    simpa [isInputAction, INPUT_ACTIONS] using h
  rcases hmem with rfl | rfl | rfl | rfl | rfl | rfl <;>
    exact ⟨_, rfl⟩

theorem mapE_all_ok {f : α → Except ε β} {l : List α}
    (h : ∀ a ∈ l, ∃ b, f a = .ok b) : ∃ ys, mapE f l = .ok ys := by
  induction l with
  | nil => exact ⟨[], rfl⟩
  | cons x xs ih =>
      obtain ⟨b, hb⟩ := h x (List.mem_cons_self _ _)
      obtain ⟨ys, hys⟩ := ih (fun a ha => h a (List.mem_cons_of_mem _ ha))
      refine ⟨b :: ys, ?_⟩
      rw [mapE, hb, hys]

theorem inputActionFunctions_ok (m : ActionManifest) :
    ∃ s, inputActionFunctions m = .ok s := by
  have hall : ∀ a ∈ m.actions.filter (fun a => isInputAction a.type),
      ∃ b, inputActionFunction a.name a.type = .ok b := by
    intro a ha
    exact inputActionFunction_ok a.name (by simpa using List.of_mem_filter ha)
  obtain ⟨ys, hys⟩ := mapE_all_ok hall
  refine ⟨joinSep "\n\n" ys, ?_⟩
  rw [inputActionFunctions, hys]
  rfl

/-- C9 (amended): generation never aborts — for every manifest value,
including one holding an action type with no generation rule, `code`
succeeds (the accessor pass filters non-input types out; the internal
invalid-type throw is unreachable); unknown action types are instead
rejected earlier, by the manifest schema, whose `z.enum` admits only the
seven known types. -/
theorem code_never_aborts :
    (∀ m : ActionManifest, exceptIsOk (code m) = true)
    ∧ (∀ (j : Json) (m : ActionManifest), parseActionManifest j = some m →
        ∀ a ∈ m.actions, a.type ∈ ACTION_TYPES) := by
  constructor
  · intro m
    obtain ⟨s, hs⟩ := inputActionFunctions_ok m
    rw [code, hs]
    rfl
  · intro j m h
    exact parseActionManifest_action_types h

/-- Witness for C9 (amended) at the unknown-type manifest and the sample
manifest. -/
theorem code_never_aborts_witness :
    exceptIsOk (code unknownTypeManifest) = true
    ∧ (∀ a ∈ sampleManifest.actions, a.type ∈ ACTION_TYPES) :=
  ⟨code_never_aborts.1 unknownTypeManifest,
    code_never_aborts.2 sampleManifestJson sampleManifest rfl⟩

set_option maxRecDepth 40000 in
/-- Counterexample for C9 as stated: a manifest holding an action of the
unknown type `unknown_type` does not abort generation — `code` succeeds, and
the action still receives its handle field in the generated structure. -/
theorem unknown_action_type_still_generates :
    exceptIsOk (code unknownTypeManifest) = true
    ∧ strInB "action_handle_x: sys::VRActionHandle_t"
        (exceptGetD (code unknownTypeManifest) "") = true
    ∧ strInB "pub fn get_x" (exceptGetD (code unknownTypeManifest) "") = false := by
  refine ⟨rfl, ?_, ?_⟩ <;> decide

/-! ## Occurrence lemmas for the generated templates. -/

theorem strIn_wrap {x y : String} (a b : String) (h : y = a ++ x ++ b) :
    strIn x y := by
  subst h
  exact strIn_append_right b (strIn_append_left a (strIn_self x))

theorem strIn_actionDeclaration_full (a : Action) :
    strIn ("let action_handle_" ++ canonicalizedActionName a.name
        ++ " = Self::get_action_handle(sys, \"" ++ a.name ++ "\")?;")
      (actionDeclaration a) := by
  apply strIn_wrap "\n            " "\n        "
  simp only [actionDeclaration]
  rw [show ("\n            let action_handle_" : String)
      = "\n            " ++ "let action_handle_" from by decide,
    show ("\")?;\n        " : String) = "\")?;" ++ "\n        " from by decide]
  simp only [String.append_assoc]

theorem strIn_actionDeclaration_head (a : Action) :
    strIn ("let action_handle_" ++ canonicalizedActionName a.name ++ " =")
      (actionDeclaration a) := by
  have base : strIn ("let action_handle_" ++ canonicalizedActionName a.name ++ " =")
      ("\n            let action_handle_" ++ canonicalizedActionName a.name
        ++ " = Self::get_action_handle(sys, \"") :=
    strIn_extract "\n            " " Self::get_action_handle(sys, \""
      (by decide) (by decide)
  simp only [actionDeclaration]
  exact strIn_append_right _ (strIn_append_right _ base)

theorem strIn_actionField_frag (a : Action) :
    strIn ("action_handle_" ++ canonicalizedActionName a.name ++ ",")
      (actionField a) := by
  simp only [actionField]
  exact strIn_extract "\n            " "\n        " (by decide) (by decide)

theorem strIn_generatedActionField_frag (a : Action) :
    strIn ("action_handle_" ++ canonicalizedActionName a.name
        ++ ": sys::VRActionHandle_t,") (generatedActionField a) := by
  simp only [generatedActionField]
  exact strIn_extract "\n            " "\n        " (by decide) (by decide)

theorem strIn_actionSetDeclaration_head (st : ActionSet) :
    strIn ("let action_set_handle_" ++ canonicalizedActionSetName st.name ++ " =")
      (actionSetDeclaration st) := by
  have base : strIn ("let action_set_handle_"
        ++ canonicalizedActionSetName st.name ++ " =")
      ("\n            let action_set_handle_" ++ canonicalizedActionSetName st.name
        ++ " = Self::get_action_set_handle(sys, \"") :=
    strIn_extract "\n            " " Self::get_action_set_handle(sys, \""
      (by decide) (by decide)
  simp only [actionSetDeclaration]
  exact strIn_append_right _ (strIn_append_right _ base)

theorem strIn_actionSetField_frag (st : ActionSet) :
    strIn ("action_set_handle_" ++ canonicalizedActionSetName st.name ++ ",")
      (actionSetField st) := by
  simp only [actionSetField]
  exact strIn_extract "\n            " "\n        " (by decide) (by decide)

theorem strIn_generatedActionSetField_frag (st : ActionSet) :
    strIn ("action_set_handle_" ++ canonicalizedActionSetName st.name
        ++ ": sys::VRActionSetHandle_t,") (generatedActionSetField st) := by
  simp only [generatedActionSetField]
  exact strIn_extract "\n            " "\n        " (by decide) (by decide)

/-! Lifting an occurrence in one of the four joined blocks into
`fieldGenerationFunction`, and in one of the two blocks into
`generatedFields`. -/

theorem strIn_fieldGen_AD {m : ActionManifest} {x : String}
    (h : strIn x (joinSep "\n" (m.actions.map actionDeclaration))) :
    strIn x (fieldGenerationFunction m) := by
  simp only [fieldGenerationFunction]
  exact strIn_append_right _ (strIn_append_left _ h)

theorem strIn_fieldGen_ASD {m : ActionManifest} {x : String}
    (h : strIn x (joinSep "\n" (m.action_sets.map actionSetDeclaration))) :
    strIn x (fieldGenerationFunction m) := by
  simp only [fieldGenerationFunction]
  exact strIn_append_left _
    (strIn_append_right _ (strIn_append_left _ h))

theorem strIn_fieldGen_AF {m : ActionManifest} {x : String}
    (h : strIn x (joinSep "\n" (m.actions.map actionField))) :
    strIn x (fieldGenerationFunction m) := by
  simp only [fieldGenerationFunction]
  exact strIn_append_left _ (strIn_append_left _
    (strIn_append_right _ (strIn_append_left _ h)))

theorem strIn_fieldGen_ASF {m : ActionManifest} {x : String}
    (h : strIn x (joinSep "\n" (m.action_sets.map actionSetField))) :
    strIn x (fieldGenerationFunction m) := by
  simp only [fieldGenerationFunction]
  exact strIn_append_left _ (strIn_append_left _ (strIn_append_left _
    (strIn_append_right _ (strIn_append_left _ h))))

theorem strIn_generatedFields_A {m : ActionManifest} {x : String}
    (h : strIn x (joinSep "\n" (m.actions.map generatedActionField))) :
    strIn x (generatedFields m) := by
  simp only [generatedFields]
  exact strIn_append_right _ (strIn_append_left _ h)

theorem strIn_generatedFields_AS {m : ActionManifest} {x : String}
    (h : strIn x (joinSep "\n" (m.action_sets.map generatedActionSetField))) :
    strIn x (generatedFields m) := by
  simp only [generatedFields]
  exact strIn_append_left _
    (strIn_append_right _ (strIn_append_left _ h))

theorem inputActionFunctions_eq {m : ActionManifest} {s : String}
    (h : inputActionFunctions m = .ok s) :
    ∃ ys, mapE (fun a => inputActionFunction a.name a.type)
        (m.actions.filter (fun a => isInputAction a.type)) = .ok ys
      ∧ s = joinSep "\n\n" ys := by
  rw [inputActionFunctions] at h
  cases hm : mapE (fun a => inputActionFunction a.name a.type)
      (m.actions.filter (fun a => isInputAction a.type)) with
  | error e => rw [hm] at h; cases h
  | ok ys =>
      rw [hm] at h
      injection h with h
      exact ⟨ys, rfl, h.symm⟩

set_option maxRecDepth 100000 in
theorem accessor_header {a : Action} {y : String}
    (ht : isInputAction a.type = true)
    (h : inputActionFunction a.name a.type = .ok y) :
    strIn ("pub fn get_" ++ canonicalizedActionName a.name ++ "(") y := by
  have hmem : a.type = "boolean" ∨ a.type = "vector1" ∨ a.type = "vector2"
      ∨ a.type = "vector3" ∨ a.type = "pose" ∨ a.type = "skeleton" := by
    simpa [isInputAction, INPUT_ACTIONS] using ht
  rcases hmem with hty | hty | hty | hty | hty | hty
  · rw [hty, show inputActionFunction a.name "boolean"
        = .ok (booleanActionFunction (canonicalizedActionName a.name)) from rfl] at h
    injection h with h
    subst h
    simp only [booleanActionFunction]
    refine strIn_append_right _ (strIn_append_right _ ?_)
    exact strIn_extract "\n        "
      "\n            &self,\n        ) -> Result<BooleanInput> \x7b\n            self.get_digital_action_data(self.generated_fields.action_handle_"
      (by decide) (by decide)
  · rw [hty, show inputActionFunction a.name "vector1"
        = .ok (vector1ActionFunction (canonicalizedActionName a.name)) from rfl] at h
    injection h with h
    subst h
    simp only [vector1ActionFunction]
    refine strIn_append_right _ (strIn_append_right _ ?_)
    exact strIn_extract "\n        "
      "\n            &self,\n        ) -> Result<Vector1Input> \x7b\n            self.get_vector1_action_data(self.generated_fields.action_handle_"
      (by decide) (by decide)
  · rw [hty, show inputActionFunction a.name "vector2"
        = .ok (vector2ActionFunction (canonicalizedActionName a.name)) from rfl] at h
    injection h with h
    subst h
    simp only [vector2ActionFunction]
    refine strIn_append_right _ (strIn_append_right _ ?_)
    exact strIn_extract "\n        "
      "\n            &self,\n        ) -> Result<Vector2Input> \x7b\n            self.get_vector2_action_data(self.generated_fields.action_handle_"
      (by decide) (by decide)
  · rw [hty, show inputActionFunction a.name "vector3"
        = .ok (vector3ActionFunction (canonicalizedActionName a.name)) from rfl] at h
    injection h with h
    subst h
    simp only [vector3ActionFunction]
    refine strIn_append_right _ (strIn_append_right _ ?_)
    exact strIn_extract "\n        "
      "\n            &self,\n        ) -> Result<Vector3Input> \x7b\n            self.get_vector3_action_data(self.generated_fields.action_handle_"
      (by decide) (by decide)
  · rw [hty, show inputActionFunction a.name "pose"
        = .ok (poseActionFunction (canonicalizedActionName a.name)) from rfl] at h
    injection h with h
    subst h
    simp only [poseActionFunction]
    refine strIn_append_right _ (strIn_append_right _ ?_)
    exact strIn_extract "\n        "
      "\n            &self,\n            tracking_universe_origin: TrackingUniverseOrigin\n        ) -> Result<PoseInput> \x7b\n            self.get_pose_action_data(tracking_universe_origin, self.generated_fields.action_handle_"
      (by decide) (by decide)
  · rw [hty, show inputActionFunction a.name "skeleton"
        = .ok (skeletonActionFunction (canonicalizedActionName a.name)) from rfl] at h
    injection h with h
    subst h
    simp only [skeletonActionFunction]
    exact strIn_extract "\n        "
      "\n            &self,\n        ) -> Result<SkeletonOutput> \x7b\n            todo!();\n        \x7d\n    "
      (by decide) (by decide)

set_option maxRecDepth 100000 in
theorem accessor_ref {a : Action} {y : String}
    (ht : isInputAction a.type = true) (hsk : a.type ≠ "skeleton")
    (h : inputActionFunction a.name a.type = .ok y) :
    strIn ("self.generated_fields.action_handle_"
        ++ canonicalizedActionName a.name ++ ")") y := by
  have hmem : a.type = "boolean" ∨ a.type = "vector1" ∨ a.type = "vector2"
      ∨ a.type = "vector3" ∨ a.type = "pose" := by
    have h6 : a.type = "boolean" ∨ a.type = "vector1" ∨ a.type = "vector2"
        ∨ a.type = "vector3" ∨ a.type = "pose" ∨ a.type = "skeleton" := by
      simpa [isInputAction, INPUT_ACTIONS] using ht
    rcases h6 with h' | h' | h' | h' | h' | h'
    · exact Or.inl h'
    · exact Or.inr (Or.inl h')
    · exact Or.inr (Or.inr (Or.inl h'))
    · exact Or.inr (Or.inr (Or.inr (Or.inl h')))
    · exact Or.inr (Or.inr (Or.inr (Or.inr h')))
    · exact absurd h' hsk
  rcases hmem with hty | hty | hty | hty | hty
  · rw [hty, show inputActionFunction a.name "boolean"
        = .ok (booleanActionFunction (canonicalizedActionName a.name)) from rfl] at h
    injection h with h
    subst h
    simp only [booleanActionFunction]
    refine strIn_extract
      ("\n        pub fn get_" ++ canonicalizedActionName a.name
        ++ "(\n            &self,\n        ) -> Result<BooleanInput> \x7b\n            self.get_digital_action_data(")
      "\n        \x7d\n    " ?_ (by decide)
    rw [show ("(\n            &self,\n        ) -> Result<BooleanInput> \x7b\n            self.get_digital_action_data(self.generated_fields.action_handle_" : String)
        = "(\n            &self,\n        ) -> Result<BooleanInput> \x7b\n            self.get_digital_action_data("
          ++ "self.generated_fields.action_handle_" from by decide]
    simp only [String.append_assoc]
  · rw [hty, show inputActionFunction a.name "vector1"
        = .ok (vector1ActionFunction (canonicalizedActionName a.name)) from rfl] at h
    injection h with h
    subst h
    simp only [vector1ActionFunction]
    refine strIn_extract
      ("\n        pub fn get_" ++ canonicalizedActionName a.name
        ++ "(\n            &self,\n        ) -> Result<Vector1Input> \x7b\n            self.get_vector1_action_data(")
      "\n        \x7d\n    " ?_ (by decide)
    rw [show ("(\n            &self,\n        ) -> Result<Vector1Input> \x7b\n            self.get_vector1_action_data(self.generated_fields.action_handle_" : String)
        = "(\n            &self,\n        ) -> Result<Vector1Input> \x7b\n            self.get_vector1_action_data("
          ++ "self.generated_fields.action_handle_" from by decide]
    simp only [String.append_assoc]
  · rw [hty, show inputActionFunction a.name "vector2"
        = .ok (vector2ActionFunction (canonicalizedActionName a.name)) from rfl] at h
    injection h with h
    subst h
    simp only [vector2ActionFunction]
    refine strIn_extract
      ("\n        pub fn get_" ++ canonicalizedActionName a.name
        ++ "(\n            &self,\n        ) -> Result<Vector2Input> \x7b\n            self.get_vector2_action_data(")
      "\n        \x7d\n    " ?_ (by decide)
    rw [show ("(\n            &self,\n        ) -> Result<Vector2Input> \x7b\n            self.get_vector2_action_data(self.generated_fields.action_handle_" : String)
        = "(\n            &self,\n        ) -> Result<Vector2Input> \x7b\n            self.get_vector2_action_data("
          ++ "self.generated_fields.action_handle_" from by decide]
    simp only [String.append_assoc]
  · rw [hty, show inputActionFunction a.name "vector3"
        = .ok (vector3ActionFunction (canonicalizedActionName a.name)) from rfl] at h
    injection h with h
    subst h
    simp only [vector3ActionFunction]
    refine strIn_extract
      ("\n        pub fn get_" ++ canonicalizedActionName a.name
        ++ "(\n            &self,\n        ) -> Result<Vector3Input> \x7b\n            self.get_vector3_action_data(")
      "\n        \x7d\n    " ?_ (by decide)
    rw [show ("(\n            &self,\n        ) -> Result<Vector3Input> \x7b\n            self.get_vector3_action_data(self.generated_fields.action_handle_" : String)
        = "(\n            &self,\n        ) -> Result<Vector3Input> \x7b\n            self.get_vector3_action_data("
          ++ "self.generated_fields.action_handle_" from by decide]
    simp only [String.append_assoc]
  · rw [hty, show inputActionFunction a.name "pose"
        = .ok (poseActionFunction (canonicalizedActionName a.name)) from rfl] at h
    injection h with h
    subst h
    simp only [poseActionFunction]
    refine strIn_extract
      ("\n        pub fn get_" ++ canonicalizedActionName a.name
        ++ "(\n            &self,\n            tracking_universe_origin: TrackingUniverseOrigin\n        ) -> Result<PoseInput> \x7b\n            self.get_pose_action_data(tracking_universe_origin, ")
      "\n        \x7d\n    " ?_ (by decide)
    rw [show ("(\n            &self,\n            tracking_universe_origin: TrackingUniverseOrigin\n        ) -> Result<PoseInput> \x7b\n            self.get_pose_action_data(tracking_universe_origin, self.generated_fields.action_handle_" : String)
        = "(\n            &self,\n            tracking_universe_origin: TrackingUniverseOrigin\n        ) -> Result<PoseInput> \x7b\n            self.get_pose_action_data(tracking_universe_origin, "
          ++ "self.generated_fields.action_handle_" from by decide]
    simp only [String.append_assoc]

theorem strIn_activate_header (st : ActionSet) :
    strIn ("pub fn activate_" ++ canonicalizedActionSetName st.name ++ "(")
      (activationFunctionPair st) := by
  simp only [activationFunctionPair]
  refine strIn_append_right _ (strIn_append_right _ (strIn_append_right _
    (strIn_append_right _ (strIn_append_right _ (strIn_append_right _
      (strIn_append_right _ (strIn_append_right _ ?_)))))))
  exact strIn_extract "\n            "
    "&mut self) \x7b\n                self.activate_action_set(self.generated_fields.action_set_handle_"
    (by decide) (by decide)

theorem strIn_activate_ref (st : ActionSet) :
    strIn ("self.generated_fields.action_set_handle_"
        ++ canonicalizedActionSetName st.name ++ ")")
      (activationFunctionPair st) := by
  simp only [activationFunctionPair]
  refine strIn_append_right _ (strIn_append_right _ (strIn_append_right _
    (strIn_append_right _ (strIn_append_right _ (strIn_append_right _ ?_)))))
  refine strIn_extract
    ("\n            pub fn activate_" ++ canonicalizedActionSetName st.name
      ++ "(&mut self) \x7b\n                self.activate_action_set(")
    "\n            \x7d\n\n            pub fn deactivate_" ?_ (by decide)
  rw [show ("(&mut self) \x7b\n                self.activate_action_set(self.generated_fields.action_set_handle_" : String)
      = "(&mut self) \x7b\n                self.activate_action_set("
        ++ "self.generated_fields.action_set_handle_" from by decide]
  simp only [String.append_assoc]

theorem strIn_deactivate_header (st : ActionSet) :
    strIn ("pub fn deactivate_" ++ canonicalizedActionSetName st.name ++ "(")
      (activationFunctionPair st) := by
  simp only [activationFunctionPair]
  refine strIn_append_right _ (strIn_append_right _ (strIn_append_right _
    (strIn_append_right _ ?_)))
  refine strIn_extract
    ("\n            pub fn activate_" ++ canonicalizedActionSetName st.name
      ++ "(&mut self) \x7b\n                self.activate_action_set(self.generated_fields.action_set_handle_"
      ++ canonicalizedActionSetName st.name ++ ")\n            \x7d\n\n            ")
    "&mut self) \x7b\n                // Deactivation logic for " ?_ (by decide)
  rw [show (")\n            \x7d\n\n            pub fn deactivate_" : String)
      = ")\n            \x7d\n\n            " ++ "pub fn deactivate_" from by decide]
  simp only [String.append_assoc]

/-- C4: for every action — of any type — the generated unit declares a handle
and a handle field named `action_handle_<canonicalized name>`, while an
accessor function is emitted exactly for the input-typed actions: non-input
(e.g. `vibration`) actions contribute nothing to the accessor block. -/
theorem generated_handles_and_accessors :
    (∀ (m : ActionManifest) (a : Action), a ∈ m.actions →
      strIn ("let action_handle_" ++ canonicalizedActionName a.name
          ++ " = Self::get_action_handle(sys, \"" ++ a.name ++ "\")?;")
        (fieldGenerationFunction m)
      ∧ strIn ("action_handle_" ++ canonicalizedActionName a.name
          ++ ": sys::VRActionHandle_t,") (generatedFields m)
      ∧ (isInputAction a.type = true → ∀ s, inputActionFunctions m = .ok s →
          strIn ("pub fn get_" ++ canonicalizedActionName a.name ++ "(") s))
    ∧ (∀ m : ActionManifest,
        inputActionFunctions
          ⟨m.default_bindings, m.actions.filter (fun a => isInputAction a.type),
            m.action_sets, m.localization⟩
          = inputActionFunctions m) := by
  constructor
  · intro m a ha
    refine ⟨?_, ?_, ?_⟩
    · exact strIn_fieldGen_AD (strIn_trans (strIn_actionDeclaration_full a)
        (strIn_joinSep _ (List.mem_map_of_mem _ ha)))
    · exact strIn_generatedFields_A (strIn_trans (strIn_generatedActionField_frag a)
        (strIn_joinSep _ (List.mem_map_of_mem _ ha)))
    · intro ht s hs
      obtain ⟨ys, hys, rfl⟩ := inputActionFunctions_eq hs
      have hmemf : a ∈ m.actions.filter (fun a => isInputAction a.type) :=
        List.mem_filter.mpr ⟨ha, ht⟩
      obtain ⟨y, hy, hfy⟩ := mapE_ok_of_mem hys hmemf
      exact strIn_trans (accessor_header ht hfy) (strIn_joinSep _ hy)
  · intro m
    simp only [inputActionFunctions]
    rw [List.filter_filter]
    simp [Bool.and_self]

set_option maxRecDepth 100000 in
/-- Witness for C4 at the sample manifest: the boolean action `/a` gets a
declaration, a field and an accessor; the vibration action `/b` gets its
field; filtering out the non-input actions leaves the accessor block
unchanged. -/
theorem generated_handles_and_accessors_witness :
    strIn ("let action_handle_" ++ canonicalizedActionName "/a"
        ++ " = Self::get_action_handle(sys, \"" ++ "/a" ++ "\")?;")
      (fieldGenerationFunction sampleManifest)
    ∧ strIn ("action_handle_" ++ canonicalizedActionName "/b"
        ++ ": sys::VRActionHandle_t,") (generatedFields sampleManifest)
    ∧ strIn ("pub fn get_" ++ canonicalizedActionName "/a" ++ "(")
        (exceptGetD (inputActionFunctions sampleManifest) "")
    ∧ inputActionFunctions
        ⟨sampleManifest.default_bindings,
          sampleManifest.actions.filter (fun a => isInputAction a.type),
          sampleManifest.action_sets, sampleManifest.localization⟩
        = inputActionFunctions sampleManifest := by
  have h := generated_handles_and_accessors
  have ha : (⟨"/a", none, "boolean", none⟩ : Action) ∈ sampleManifest.actions := by
    decide
  have hb : (⟨"/b", none, "vibration", none⟩ : Action) ∈ sampleManifest.actions := by
    decide
  exact ⟨(h.1 sampleManifest _ ha).1, (h.1 sampleManifest _ hb).2.1,
    (h.1 sampleManifest _ ha).2.2 rfl _ rfl, h.2 sampleManifest⟩

/-- C8: one manifest name yields one consistent identifier at every site of
the generated unit — the handle field referenced inside an accessor body is
the one bound and stored by `generate_fields` and declared in
`GeneratedFields`, and the handle referenced by the `activate_`/`deactivate_`
functions is the declared action-set handle field — the same
canonicalization applied at every declaration and reference site. -/
theorem identifier_consistency :
    ∀ m : ActionManifest,
      (∀ a ∈ m.actions, isInputAction a.type = true → a.type ≠ "skeleton" →
        ∀ s, inputActionFunctions m = .ok s →
          strIn ("self.generated_fields.action_handle_"
              ++ canonicalizedActionName a.name ++ ")") s)
      ∧ (∀ a ∈ m.actions,
          strIn ("let action_handle_" ++ canonicalizedActionName a.name ++ " =")
            (fieldGenerationFunction m)
          ∧ strIn ("action_handle_" ++ canonicalizedActionName a.name ++ ",")
            (fieldGenerationFunction m)
          ∧ strIn ("action_handle_" ++ canonicalizedActionName a.name
              ++ ": sys::VRActionHandle_t,") (generatedFields m))
      ∧ (∀ st ∈ m.action_sets,
          strIn ("pub fn activate_" ++ canonicalizedActionSetName st.name ++ "(")
            (activationFunctions m)
          ∧ strIn ("pub fn deactivate_" ++ canonicalizedActionSetName st.name
              ++ "(") (activationFunctions m)
          ∧ strIn ("self.generated_fields.action_set_handle_"
              ++ canonicalizedActionSetName st.name ++ ")") (activationFunctions m)
          ∧ strIn ("let action_set_handle_" ++ canonicalizedActionSetName st.name
              ++ " =") (fieldGenerationFunction m)
          ∧ strIn ("action_set_handle_" ++ canonicalizedActionSetName st.name
              ++ ",") (fieldGenerationFunction m)
          ∧ strIn ("action_set_handle_" ++ canonicalizedActionSetName st.name
              ++ ": sys::VRActionSetHandle_t,") (generatedFields m)) := by
  intro m
  refine ⟨?_, ?_, ?_⟩
  · intro a ha ht hsk s hs
    obtain ⟨ys, hys, rfl⟩ := inputActionFunctions_eq hs
    have hmemf : a ∈ m.actions.filter (fun a => isInputAction a.type) :=
      List.mem_filter.mpr ⟨ha, ht⟩
    obtain ⟨y, hy, hfy⟩ := mapE_ok_of_mem hys hmemf
    exact strIn_trans (accessor_ref ht hsk hfy) (strIn_joinSep _ hy)
  · intro a ha
    refine ⟨?_, ?_, ?_⟩
    · exact strIn_fieldGen_AD (strIn_trans (strIn_actionDeclaration_head a)
        (strIn_joinSep _ (List.mem_map_of_mem _ ha)))
    · exact strIn_fieldGen_AF (strIn_trans (strIn_actionField_frag a)
        (strIn_joinSep _ (List.mem_map_of_mem _ ha)))
    · exact strIn_generatedFields_A (strIn_trans (strIn_generatedActionField_frag a)
        (strIn_joinSep _ (List.mem_map_of_mem _ ha)))
  · intro st hst
    refine ⟨?_, ?_, ?_, ?_, ?_, ?_⟩
    · exact strIn_trans (strIn_activate_header st)
        (strIn_joinSep _ (List.mem_map_of_mem _ hst))
    · exact strIn_trans (strIn_deactivate_header st)
        (strIn_joinSep _ (List.mem_map_of_mem _ hst))
    · exact strIn_trans (strIn_activate_ref st)
        (strIn_joinSep _ (List.mem_map_of_mem _ hst))
    · exact strIn_fieldGen_ASD (strIn_trans (strIn_actionSetDeclaration_head st)
        (strIn_joinSep _ (List.mem_map_of_mem _ hst)))
    · exact strIn_fieldGen_ASF (strIn_trans (strIn_actionSetField_frag st)
        (strIn_joinSep _ (List.mem_map_of_mem _ hst)))
    · exact strIn_generatedFields_AS (strIn_trans
        (strIn_generatedActionSetField_frag st)
        (strIn_joinSep _ (List.mem_map_of_mem _ hst)))

set_option maxRecDepth 100000 in
/-- Witness for C8 at the sample manifest: the accessor body of `/a`
references the declared field, and the set `/actions/main` uses one
identifier at its six sites. -/
theorem identifier_consistency_witness :
    strIn ("self.generated_fields.action_handle_" ++ canonicalizedActionName "/a"
        ++ ")") (exceptGetD (inputActionFunctions sampleManifest) "")
    ∧ strIn ("let action_handle_" ++ canonicalizedActionName "/a" ++ " =")
        (fieldGenerationFunction sampleManifest)
    ∧ strIn ("pub fn activate_" ++ canonicalizedActionSetName "/actions/main"
        ++ "(") (activationFunctions sampleManifest)
    ∧ strIn ("self.generated_fields.action_set_handle_"
        ++ canonicalizedActionSetName "/actions/main" ++ ")")
        (activationFunctions sampleManifest)
    ∧ strIn ("action_set_handle_" ++ canonicalizedActionSetName "/actions/main"
        ++ ": sys::VRActionSetHandle_t,") (generatedFields sampleManifest) := by
  have h := identifier_consistency sampleManifest
  have ha : (⟨"/a", none, "boolean", none⟩ : Action) ∈ sampleManifest.actions := by
    decide
  have hst : (⟨"/actions/main", "single"⟩ : ActionSet) ∈ sampleManifest.action_sets := by
    decide
  exact ⟨h.1 _ ha rfl (by decide) _ rfl, (h.2.1 _ ha).1, (h.2.2 _ hst).1,
    (h.2.2 _ hst).2.2.1, (h.2.2 _ hst).2.2.2.2.2⟩

/-- C5: on a successful run the generator writes exactly the whitespace
normalization (`flatCode`) of: the fixed auto-generated notice, the prelude
with everything from the `STUB_FOLLOWS` marker through end of file removed,
and the generated block — which itself is the `.trim()` of `codeBody`: the
`impl` block (init stub, `generate_fields`, accessors, activation functions)
followed by the `GeneratedFields` structure. -/
theorem generator_output_assembly :
    ∀ (fs : String → Option String) (jsonParse : String → Option Json)
      (mp pp gp : String) (mtext : String) (j : Json) (m : ActionManifest)
      (ptext : String) (g : String),
      fs mp = some mtext → jsonParse mtext = some j →
      parseActionManifest j = some m → fs pp = some ptext →
      code m = .ok g →
      generatorMain fs jsonParse mp pp gp
        = .ok (gp, flatCode (generationNotice ++ stripStub ptext ++ g))
      ∧ (∀ iaf, inputActionFunctions m = .ok iaf → g = jsTrim (codeBody m iaf)) := by
  intro fs jsonParse mp pp gp mtext j m ptext g hfs hjp hpm hpp hc
  constructor
  · unfold generatorMain
    simp only [hfs, hjp, hpm, hpp, hc]
  · intro iaf hiaf
    rw [code] at hc
    rw [hiaf] at hc
    simp only [Except.ok.injEq] at hc
    exact hc.symm

set_option maxRecDepth 400000 in
set_option maxHeartbeats 2000000 in
/-- Witness for C5 at the sample inputs, with the stub region of the prelude
discarded. -/
theorem generator_output_assembly_witness :
    generatorMain sampleFs sampleJsonParse "m.json" "p.rs" "out.rs"
      = .ok ("out.rs", flatCode (generationNotice
          ++ stripStub "prelude line\n// STUB_FOLLOWS\nstub body"
          ++ exceptGetD (code sampleManifest) ""))
    ∧ exceptGetD (code sampleManifest) ""
        = jsTrim (codeBody sampleManifest
            (exceptGetD (inputActionFunctions sampleManifest) "")) := by
  have h := generator_output_assembly sampleFs sampleJsonParse "m.json" "p.rs"
    "out.rs" "MANIFEST" sampleManifestJson sampleManifest
    "prelude line\n// STUB_FOLLOWS\nstub body"
    (exceptGetD (code sampleManifest) "") rfl rfl rfl rfl rfl
  exact ⟨h.1, h.2 _ rfl⟩

end Oscpie
